import Mathlib

/-!
# Verification of the n8n-ai debounced search/pagination controller and
# the workflows.getMany data procedure

This file gives a shallow embedding of:

* `useEntitySearch` (the debounced, URL-synchronized search controller hook),
  modelled as an event-driven state machine.  Events are user keystrokes
  (`onSearchChange` / `setLocalSearch`), the firing of the single pending
  debounce timer, and external changes to the URL parameter store.
* the `workflowsRouter.getMany` procedure: its zod input validation and the
  query/aggregation it performs, over a list-of-rows model of the database.

Modelling notes for the hook (source: `useEntitySearch`):

* Effect 1 has dependency list `[localSearch, params, setParams, debounceMs]`.
  Hence whenever `localSearch` or `params` changes, the pending timer is
  cancelled (cleanup) and the effect body re-runs against the *current*
  values.  Consequently a pending timer's captured `(localSearch, params)`
  always coincide with the current state, which is why the model keeps only a
  Boolean `timerPending` and lets the fire event read the current state.
* `setLocalSearch` is a React `useState` setter: calling it with a value equal
  to the current state is a no-op (no re-render, effects do not re-run).
* Each event is modelled as the *net* quiescent result of the render/effect
  cascade it triggers (state updates from `setParams` and `setLocalSearch`
  followed by the effect re-runs they cause, iterated until nothing changes).
  The cascades terminate after at most three render passes, and the debounce
  interval (default 500 ms) is large compared to a render pass, so the timer
  cannot fire mid-cascade.  Every `setParams` call is recorded in `commits`.
-/

namespace PAGINATION

/-- Modelled from the spec: the `config/constants` module defining
`PAGINATION` is not among the sources (only its importers are).  The spec
states the `page` field's default is `1`, so `PAGINATION.DEFAULT_PAGE = 1`. -/
def DEFAULT_PAGE : Int := 1

end PAGINATION

namespace EntitySearch

/-- The hook reads `PAGINATION.DEFAULT_PAGE` for every page reset. -/
def defaultPage : Int := PAGINATION.DEFAULT_PAGE

/-- The generic parameter object `T extends { search: string; page: number }`.
`extra` stands for all remaining fields (`pageSize`, sort, ...), which the
hook spreads through unchanged (`{ ...params, search, page }`). -/
structure Params (E : Type) where
  search : String
  page : Int
  extra : E
deriving DecidableEq, Repr

/-- Controller state: `localSearch` (the `useState` value), the current
external `params`, whether a debounce timer is pending, and the trace of
`setParams` calls made so far (most recent last). -/
structure Ctrl (E : Type) where
  localSearch : String
  params : Params E
  timerPending : Bool
  commits : List (Params E)
deriving DecidableEq, Repr

/-- Mount: `useState(params.search)` seeds the local value; effect 1 then
runs and schedules a timer (the instant-clear branch cannot apply because
`localSearch = params.search`). -/
def init {E : Type} (p : Params E) : Ctrl E :=
  { localSearch := p.search, params := p, timerPending := true, commits := [] }

/-- The object `{ ...params, search, page: PAGINATION.DEFAULT_PAGE }` built at
both commit sites. -/
def commitOf {E : Type} (p : Params E) (s : String) : Params E :=
  { p with search := s, page := defaultPage }

/-- A keystroke: `onSearchChange s`, i.e. `setLocalSearch s`.
If `s` equals the current local value, `useState` bails out and nothing
happens.  Otherwise `localSearch := s` and effect 1 re-runs: the pending
timer is cancelled, and

* instant-clear branch (`s = "" ∧ params.search ≠ ""`): `setParams` is called
  with the clear commit; the resulting params change re-runs effect 1 (which
  now schedules a timer that will be a no-op, as `localSearch = "" =
  params.search`) and effect 2 (`setLocalSearch ""`, a bail-out);
* otherwise a fresh timer is scheduled. -/
def inputStep {E : Type} (s : String) (st : Ctrl E) : Ctrl E :=
  if s = st.localSearch then st
  else if s = "" ∧ st.params.search ≠ "" then
    let c := commitOf st.params ""
    { localSearch := ""
      params := c
      timerPending := true
      commits := st.commits ++ [c] }
  else
    { st with localSearch := s, timerPending := true }

/-- The pending debounce timer fires.  Its captured values equal the current
state (see the modelling notes).  If `localSearch ≠ params.search`, the
commit is made; the params change re-runs effect 1 (scheduling a fresh timer
that will be a no-op) and effect 2 (a bail-out, since the committed search
equals `localSearch`).  Otherwise nothing happens and no timer remains. -/
def fireStep {E : Type} (st : Ctrl E) : Ctrl E :=
  if st.timerPending then
    if st.localSearch ≠ st.params.search then
      let c := commitOf st.params st.localSearch
      { st with
          params := c
          timerPending := true
          commits := st.commits ++ [c] }
    else
      { st with timerPending := false }
  else st

/-- An external change of the parameter store to `p` (back/forward
navigation, a pasted URL, another component).  Effect 1 re-runs (cancelling
the pending timer) against `(localSearch, p)`:

* if `localSearch = "" ∧ p.search ≠ ""`, the instant-clear branch calls
  `setParams` with the clear commit; the cascade (effect 2 setting
  `localSearch := p.search`, then the clear's own params change setting it
  back to `""`) ends with `localSearch = ""` and a pending no-op timer;
* otherwise a timer is scheduled, and effect 2 (dependency `params.search`)
  sets `localSearch := p.search` when it differs from the previous search,
  whose change re-runs effect 1 once more (rescheduling a no-op timer). -/
def extSetStep {E : Type} (p : Params E) (st : Ctrl E) : Ctrl E :=
  if st.localSearch = "" ∧ p.search ≠ "" then
    let c := commitOf p ""
    { localSearch := ""
      params := c
      timerPending := true
      commits := st.commits ++ [c] }
  else if p.search ≠ st.params.search then
    { localSearch := p.search
      params := p
      timerPending := true
      commits := st.commits }
  else
    { st with params := p, timerPending := true }

/-- Unmount: the effect cleanup cancels the pending timer. -/
def unmountStep {E : Type} (st : Ctrl E) : Ctrl E :=
  { st with timerPending := false }

/-- The controller's event alphabet. -/
inductive Ev (E : Type) where
  | input (s : String)
  | fire
  | extSet (p : Params E)
  | unmount
deriving DecidableEq, Repr

/-- The parameter object in force when an event is processed: the incoming
store value for an external set, the current `params` otherwise.  Both
commit sites spread this object (`{ ...params, ... }`). -/
def sourceParams {E : Type} (e : Ev E) (st : Ctrl E) : Params E :=
  match e with
  | Ev.extSet p => p
  | _ => st.params

def step {E : Type} (e : Ev E) (st : Ctrl E) : Ctrl E :=
  match e with
  | Ev.input s => inputStep s st
  | Ev.fire => fireStep st
  | Ev.extSet p => extSetStep p st
  | Ev.unmount => unmountStep st

/-- Run a list of events, in order, from a state. -/
def run {E : Type} (evs : List (Ev E)) (st : Ctrl E) : Ctrl E :=
  evs.foldl (fun s e => step e s) st

end EntitySearch

namespace Workflows

/-!
Embedding of `workflowsRouter.getMany`.  The zod input schema is

```
z.object({
  page: z.number().default(PAGINATION.DEFAULT_PAGE),
  pageSize: z.number().min(PAGINATION.MIN_PAGE_SIZE)
                      .max(PAGINATION.MAX_PAGE_SIZE)
                      .default(PAGINATION.DEFAULT_PAGE_SIZE),
  search: z.string().default(""),
})
```

JS numbers are embedded as `Int`.  The `MIN_PAGE_SIZE`, `MAX_PAGE_SIZE` and
`DEFAULT_PAGE_SIZE` constants live in the `config/constants` module, which is
not among the sources; they are kept as parameters (`minPS`, `maxPS`,
`defPS`) of the validator.  `.default` substitutes the default for a missing
field and then runs it through the surrounding checks, so a defaulted
`pageSize` is also bounds-checked.  `page` carries no bound at all.

The database behind `prisma.workflow.findMany`/`count` is modelled as a list
of rows; `findMany` filters by the `where` object, orders by `createdAt`
descending, and applies `skip`/`take`.
-/

/-- A row of the `workflow` table (the fields the procedure touches). -/
structure Workflow where
  id : String
  name : String
  userId : String
  createdAt : Int
deriving DecidableEq, Repr

/-- The raw (wire) input of `getMany`: each field may be absent. -/
structure RawInput where
  page : Option Int
  pageSize : Option Int
  search : Option String
deriving DecidableEq, Repr

/-- The validated input of `getMany`. -/
structure Input where
  page : Int
  pageSize : Int
  search : String
deriving DecidableEq, Repr

/-- The zod validation of `getMany`'s input: defaults are substituted, and
`pageSize` is checked against `min`/`max`; `page` and `search` have no
constraint beyond their type. -/
def parseInput (minPS maxPS defPS : Int) (raw : RawInput) : Option Input :=
  let page := raw.page.getD PAGINATION.DEFAULT_PAGE
  let pageSize := raw.pageSize.getD defPS
  let search := raw.search.getD ""
  if minPS ≤ pageSize ∧ pageSize ≤ maxPS then
    some { page := page, pageSize := pageSize, search := search }
  else
    none

/-- Characters of a string, lower-cased (the embedding of a
case-insensitive view of a string). -/
def lowerChars (s : String) : List Char := s.toList.map Char.toLower

/-- `hasSub needle hay`: `needle` occurs as a contiguous run inside `hay`. -/
def hasSub (needle : List Char) : List Char → Bool
  | [] => needle.isEmpty
  | c :: rest => needle.isPrefixOf (c :: rest) || hasSub needle rest

/-- The embedding of the ORM filter `name: { contains: search,
mode: "insensitive" }`: a case-insensitive substring test. -/
def containsCI (name pat : String) : Bool :=
  hasSub (lowerChars pat) (lowerChars name)

/-- The `where` object:
`{ userId, ...(search && { name: { contains: search, mode: "insensitive" } }) }`.
The name condition is spread in only when `search` is truthy, i.e.
non-empty. -/
def whereMatches (uid search : String) (w : Workflow) : Bool :=
  w.userId == uid && (if search = "" then true else containsCI w.name search)

/-- Insert into a list kept in descending `createdAt` order. -/
def insertDesc (w : Workflow) : List Workflow → List Workflow
  | [] => [w]
  | x :: xs => if x.createdAt ≤ w.createdAt then w :: x :: xs
               else x :: insertDesc w xs

/-- `orderBy: { createdAt: "desc" }` over the row-list model. -/
def sortDesc : List Workflow → List Workflow
  | [] => []
  | x :: xs => insertDesc x (sortDesc xs)

/-- The record `getMany` returns. -/
structure Result where
  items : List Workflow
  total : Nat
  page : Int
  pageSize : Int
  totalPages : Nat
  hasNextPage : Bool
  hasPreviousPage : Bool
deriving DecidableEq, Repr

/-- The body of `getMany` over the row-list database model, for the
authenticated user `uid`:

* `skip = (page - 1) * pageSize` (negative skips, which the real ORM
  rejects at runtime, are clamped by `Int.toNat`; accepted inputs with
  `page ≥ 1` never produce one);
* `findMany` filters by `whereMatches`, sorts by `createdAt` descending and
  applies `skip`/`take pageSize`; `count` counts the same filter;
* `totalPages = Math.ceil(total / pageSize)`, which for a natural `total`
  and positive `pageSize` is `(total + pageSize - 1) / pageSize` (the
  theorem on `totalPages` below certifies this equals the exact ceiling);
* `hasNextPage = page < totalPages`, `hasPreviousPage = page > 1`. -/
def getMany (db : List Workflow) (uid : String) (inp : Input) : Result :=
  let skip : Int := (inp.page - 1) * inp.pageSize
  let filtered := db.filter (whereMatches uid inp.search)
  let sorted := sortDesc filtered
  let workflows := (sorted.drop skip.toNat).take inp.pageSize.toNat
  let total := filtered.length
  let totalPages := (total + inp.pageSize.toNat - 1) / inp.pageSize.toNat
  { items := workflows
    total := total
    page := inp.page
    pageSize := inp.pageSize
    totalPages := totalPages
    hasNextPage := decide (inp.page < (totalPages : Int))
    hasPreviousPage := decide (1 < inp.page) }

end Workflows

/-! ## Basic run lemmas -/

namespace EntitySearch

theorem run_nil {E : Type} (st : Ctrl E) : run ([] : List (Ev E)) st = st := rfl

theorem run_cons {E : Type} (e : Ev E) (evs : List (Ev E)) (st : Ctrl E) :
    run (e :: evs) st = run evs (step e st) := rfl

theorem run_append {E : Type} (l₁ l₂ : List (Ev E)) (st : Ctrl E) :
    run (l₁ ++ l₂) st = run l₂ (run l₁ st) :=
  List.foldl_append _ _ _ _

/-- Each event either leaves the commit trace unchanged or appends exactly
one commit, built by `commitOf` from the parameter object in force (the
incoming `p` for an external set, the current `params` otherwise). -/
theorem step_commits {E : Type} (e : Ev E) (st : Ctrl E) :
    (step e st).commits = st.commits ∨
      ∃ p s, (step e st).commits = st.commits ++ [commitOf p s] := by
  cases e with
  | input s =>
      simp only [step, inputStep]
      split_ifs with h1 h2
      · exact Or.inl rfl
      · exact Or.inr ⟨st.params, "", rfl⟩
      · exact Or.inl rfl
  | fire =>
      simp only [step, fireStep]
      split_ifs with h1 h2
      · exact Or.inr ⟨st.params, st.localSearch, rfl⟩
      · exact Or.inl rfl
      · exact Or.inl rfl
  | extSet p =>
      simp only [step, extSetStep]
      split_ifs with h1 h2
      · exact Or.inr ⟨p, "", rfl⟩
      · exact Or.inl rfl
      · exact Or.inl rfl
  | unmount => exact Or.inl rfl

/-- Along any run, commits only accumulate at the end of the trace. -/
theorem run_commits_aux {E : Type} (evs : List (Ev E)) (st : Ctrl E)
    (P : Params E → Prop) (hP : ∀ p s, P (commitOf p s))
    (h : ∀ c ∈ st.commits, P c) :
    ∀ c ∈ (run evs st).commits, P c := by
  induction evs generalizing st with
  | nil => exact h
  | cons e evs ih =>
      rw [run_cons]
      refine ih (step e st) ?_
      rcases step_commits e st with hc | ⟨p, s, hc⟩
      · rw [hc]; exact h
      · rw [hc]
        intro c hcmem
        rcases List.mem_append.1 hcmem with hmem | hmem
        · exact h c hmem
        · rcases List.mem_singleton.1 hmem with rfl
          exact hP p s

end EntitySearch

namespace EntitySearch

/-- C3: Every write the controller makes to `SearchParams` (instant-clear
fast path or fired debounce timer) sets `page` to `1`; no commit in any run
from a mounted controller carries a page value other than `1`, regardless of
the page value of the current params. -/
theorem commits_page_eq_one {E : Type} (p0 : Params E) (evs : List (Ev E))
    (c : Params E) (hc : c ∈ (run evs (init p0)).commits) : c.page = 1 := by
  refine run_commits_aux evs (init p0) (fun c => c.page = 1) ?_ ?_ c hc
  · intro p s; rfl
  · intro c hmem
    simp [init] at hmem

/-- Witness for C3: the run of the spec's P3 scenario (external state
`{search: "x", page: 5}`, one keystroke `"a"`, timer expiry) commits
`{search := "a", page := 1}`, whose page is `1`. -/
theorem commits_page_eq_one_witness :
    (⟨"a", 1, ()⟩ : Params Unit) ∈
        (run [Ev.input "a", Ev.fire] (init ⟨"x", 5, ()⟩)).commits ∧
      (⟨"a", 1, ()⟩ : Params Unit).page = 1 :=
  ⟨by decide,
   commits_page_eq_one ⟨"x", 5, ()⟩ [Ev.input "a", Ev.fire] ⟨"a", 1, ()⟩ (by decide)⟩

/-- C7: On every commit the controller makes, all fields of the parameter
object other than `search` and `page` are preserved verbatim: each step
either makes no commit, or appends one commit equal to the parameter object
in force (`sourceParams`) with only `search` replaced and `page` set to
`1`. -/
theorem step_frame {E : Type} (e : Ev E) (st : Ctrl E) :
    (step e st).commits = st.commits ∨
      ∃ s, (step e st).commits =
        st.commits ++ [{ sourceParams e st with search := s, page := 1 }] := by
  cases e with
  | input s =>
      simp only [step, inputStep, sourceParams]
      split_ifs with h1 h2
      · exact Or.inl rfl
      · exact Or.inr ⟨"", rfl⟩
      · exact Or.inl rfl
  | fire =>
      simp only [step, fireStep, sourceParams]
      split_ifs with h1 h2
      · exact Or.inr ⟨st.localSearch, rfl⟩
      · exact Or.inl rfl
      · exact Or.inl rfl
  | extSet p =>
      simp only [step, extSetStep, sourceParams]
      split_ifs with h1 h2
      · exact Or.inr ⟨"", rfl⟩
      · exact Or.inl rfl
      · exact Or.inl rfl
  | unmount => exact Or.inl rfl

end EntitySearch

namespace EntitySearch

/-- Stepping preserves the state invariant "the local value is not empty
while the external search is non-empty" (any would-be violation is resolved
by the instant-clear branch in the same step). -/
theorem step_search_inv {E : Type} (e : Ev E) (st : Ctrl E)
    (h : ¬(st.localSearch = "" ∧ st.params.search ≠ "")) :
    ¬((step e st).localSearch = "" ∧ (step e st).params.search ≠ "") := by
  cases e with
  | input s =>
      simp only [step, inputStep]
      split_ifs with h1 h2
      · exact h
      · simp [commitOf]
      · exact h2
  | fire =>
      simp only [step, fireStep]
      split_ifs with h1 h2
      · simp [commitOf]
      · exact h
      · exact h
  | extSet p =>
      simp only [step, extSetStep]
      split_ifs with h1 h2
      · simp [commitOf]
      · intro hc
        exact hc.2 hc.1
      · intro hc
        rw [not_not] at h2
        exact h ⟨hc.1, h2 ▸ hc.2⟩
  | unmount => exact h

/-- The invariant holds in every state reachable from a mount. -/
theorem run_search_inv {E : Type} (p0 : Params E) (evs : List (Ev E)) :
    ¬((run evs (init p0)).localSearch = ""
        ∧ (run evs (init p0)).params.search ≠ "") := by
  suffices haux : ∀ (evs : List (Ev E)) (st : Ctrl E),
      ¬(st.localSearch = "" ∧ st.params.search ≠ "") →
      ¬((run evs st).localSearch = "" ∧ (run evs st).params.search ≠ "") by
    refine haux evs (init p0) ?_
    intro hc
    exact hc.2 (hc.1 ▸ rfl)
  intro evs
  induction evs with
  | nil => intro st h; exact h
  | cons e evs ih =>
      intro st h
      rw [run_cons]
      exact ih (step e st) (step_search_inv e st h)

end EntitySearch

namespace EntitySearch

/-- C2: If `onUserInput` is called with the empty string while the current
external `SearchParams.search` is non-empty, then a commit with
`search = ""` and `page = 1` occurs immediately in that very step (no
debounce delay), the external params become that commit, and the previously
pending debounce timer never produces a commit: a subsequent timer expiry
adds nothing to the trace. -/
theorem instant_clear {E : Type} (p0 : Params E) (evs : List (Ev E))
    (h : (run evs (init p0)).params.search ≠ "") :
    (step (Ev.input "") (run evs (init p0))).commits
        = (run evs (init p0)).commits
            ++ [{ (run evs (init p0)).params with search := "", page := 1 }] ∧
      (step (Ev.input "") (run evs (init p0))).params
        = { (run evs (init p0)).params with search := "", page := 1 } ∧
      (step Ev.fire (step (Ev.input "") (run evs (init p0)))).commits
        = (step (Ev.input "") (run evs (init p0))).commits := by
  have hinv := run_search_inv p0 evs
  set st := run evs (init p0) with hst
  have hl : st.localSearch ≠ "" := by
    intro hl
    exact hinv ⟨hl, h⟩
  have h1 : step (Ev.input "") st
      = { localSearch := ""
          params := commitOf st.params ""
          timerPending := true
          commits := st.commits ++ [commitOf st.params ""] } := by
    simp only [step, inputStep]
    split_ifs with hA hB
    · exact absurd hA.symm hl
    · rfl
    · exact absurd ⟨trivial, h⟩ hB
  refine ⟨?_, ?_, ?_⟩
  · rw [h1]; simp [commitOf, defaultPage, PAGINATION.DEFAULT_PAGE]
  · rw [h1]; simp [commitOf, defaultPage, PAGINATION.DEFAULT_PAGE]
  · rw [h1]; simp [step, fireStep, commitOf]

/-- Witness for C2 at the spec's P2 scenario: external search `"abc"`,
`onUserInput("")` commits `{search := "", page := 1}` at once, and the
subsequent timer expiry adds nothing. -/
theorem instant_clear_witness :
    ((run ([] : List (Ev Unit)) (init ⟨"abc", 7, ()⟩)).params.search ≠ "") ∧
      ((step (Ev.input "") (run ([] : List (Ev Unit)) (init ⟨"abc", 7, ()⟩))).commits
          = (run ([] : List (Ev Unit)) (init ⟨"abc", 7, ()⟩)).commits
              ++ [{ (run ([] : List (Ev Unit)) (init ⟨"abc", 7, ()⟩)).params with
                      search := "", page := 1 }] ∧
        (step (Ev.input "") (run ([] : List (Ev Unit)) (init ⟨"abc", 7, ()⟩))).params
          = { (run ([] : List (Ev Unit)) (init ⟨"abc", 7, ()⟩)).params with
                search := "", page := 1 } ∧
        (step Ev.fire
            (step (Ev.input "") (run ([] : List (Ev Unit)) (init ⟨"abc", 7, ()⟩)))).commits
          = (step (Ev.input "") (run ([] : List (Ev Unit)) (init ⟨"abc", 7, ()⟩))).commits) :=
  ⟨by decide, instant_clear ⟨"abc", 7, ()⟩ [] (by decide)⟩

end EntitySearch

namespace EntitySearch

/-- A burst of keystrokes with no intervening timer expiry, none of which
triggers the instant-clear branch: the external params and the commit trace
are untouched, the local value ends at the last keystroke (or stays put if
there is none), and a pending timer stays pending. -/
theorem run_inputs {E : Type} (ss : List String) (st : Ctrl E)
    (hnc : ∀ s ∈ ss, ¬(s = "" ∧ st.params.search ≠ "")) :
    (run (ss.map Ev.input) st).localSearch = ss.getLastD st.localSearch ∧
      (run (ss.map Ev.input) st).params = st.params ∧
      (run (ss.map Ev.input) st).commits = st.commits ∧
      (st.timerPending = true → (run (ss.map Ev.input) st).timerPending = true) := by
  induction ss generalizing st with
  | nil => exact ⟨rfl, rfl, rfl, fun h => h⟩
  | cons s ss ih =>
      rw [List.map_cons, run_cons]
      by_cases hb : s = st.localSearch
      · have hstep : step (Ev.input s) st = st := by
          simp only [step, inputStep]
          rw [if_pos hb]
        rw [hstep]
        obtain ⟨h1, h2, h3, h4⟩ := ih st (fun t ht => hnc t (List.mem_cons_of_mem _ ht))
        refine ⟨?_, h2, h3, h4⟩
        rw [h1, List.getLastD_cons, hb]
      · have hclear : ¬(s = "" ∧ st.params.search ≠ "") :=
          hnc s (List.mem_cons_self _ _)
        have hstep : step (Ev.input s) st
            = { st with localSearch := s, timerPending := true } := by
          simp only [step, inputStep]
          rw [if_neg hb, if_neg hclear]
        rw [hstep]
        obtain ⟨h1, h2, h3, h4⟩ :=
          ih { st with localSearch := s, timerPending := true }
            (fun t ht => hnc t (List.mem_cons_of_mem _ ht))
        exact ⟨by rw [h1, List.getLastD_cons], h2, h3, fun _ => h4 rfl⟩

/-- C1 counterexample: typing `"h"`, `"he"`, `"hel"` (gaps below the
debounce interval) and then pausing produces *zero* `setParams` calls when
the external search already equals `"hel"` — not exactly one. -/
theorem debounce_single_commit_cex :
    (run ((["h", "he", "hel"].map Ev.input) ++ [Ev.fire])
        (init (⟨"hel", 1, ()⟩ : Params Unit))).commits = [] := by decide

/-- C1 (amended): for a non-empty burst of keystrokes below the debounce
interval, none of which is the instant-clear case (empty input while the
external search is non-empty), followed by silence of at least the debounce
interval (the pending timer fires), where the final keystroke differs from
the current external search: exactly one commit occurs, carrying the final
value as `search` and `page = 1`. -/
theorem debounce_single_commit {E : Type} (p0 : Params E) (ss : List String)
    (hnc : ∀ s ∈ ss, ¬(s = "" ∧ p0.search ≠ ""))
    (hlast : ss.getLastD p0.search ≠ p0.search) :
    (run (ss.map Ev.input ++ [Ev.fire]) (init p0)).commits
      = [{ p0 with search := ss.getLastD p0.search, page := 1 }] := by
  rw [run_append]
  obtain ⟨h1, h2, h3, h4⟩ := run_inputs ss (init p0) (fun t ht hc => hnc t ht hc)
  have hfire : run [Ev.fire] (run (ss.map Ev.input) (init p0))
      = fireStep (run (ss.map Ev.input) (init p0)) := rfl
  rw [hfire]
  have ht : (run (ss.map Ev.input) (init p0)).timerPending = true := h4 rfl
  have hl : (run (ss.map Ev.input) (init p0)).localSearch = ss.getLastD p0.search := by
    rw [h1]; rfl
  have hp : (run (ss.map Ev.input) (init p0)).params = p0 := h2
  simp only [fireStep, ht, if_true, hl, hp]
  rw [if_pos hlast, h3]
  simp [init, commitOf, defaultPage, PAGINATION.DEFAULT_PAGE]

/-- Witness for C1 (amended), at the spec's P1/scenario instance: from
`{search := "", page := 3}`, the keystrokes `"h"`, `"he"`, `"hel"` and a
timer expiry yield exactly one commit, `{search := "hel", page := 1}`. -/
theorem debounce_single_commit_witness :
    ["h", "he", "hel"].getLastD (⟨"", 3, ()⟩ : Params Unit).search
        ≠ (⟨"", 3, ()⟩ : Params Unit).search ∧
      (run ((["h", "he", "hel"].map Ev.input) ++ [Ev.fire])
          (init (⟨"", 3, ()⟩ : Params Unit))).commits
        = [{ (⟨"", 3, ()⟩ : Params Unit) with search := "hel", page := 1 }] :=
  ⟨by decide,
   debounce_single_commit ⟨"", 3, ()⟩ ["h", "he", "hel"] (by decide) (by decide)⟩

end EntitySearch

namespace EntitySearch

/-- C4 counterexample: with local value `""` and external search `""`
(the freshly mounted state), an external change of `search` to `"bar"` makes
the controller fire its instant-clear branch: the reconciliation *does*
produce an `apply` call of its own (committing `search := ""`), and the
local value ends at `""`, not at the new external value `"bar"`. -/
theorem external_sync_cex :
    (step (Ev.extSet ⟨"bar", 1, ()⟩) (run [] (init (⟨"", 1, ()⟩ : Params Unit)))).commits
        = [⟨"", 1, ()⟩] ∧
      (step (Ev.extSet ⟨"bar", 1, ()⟩)
          (run [] (init (⟨"", 1, ()⟩ : Params Unit)))).localSearch = "" := by
  decide

/-- C4 (amended): whenever `SearchParams.search` changes externally and the
instant-clear precondition does not hold (it is not the case that the local
value is `""` while the new search is non-empty), the local value is set to
the new search value within the same reconciliation step, with no debounce
delay, and that reconciliation makes no `apply` call of its own. -/
theorem external_sync {E : Type} (st : Ctrl E) (p : Params E)
    (hch : p.search ≠ st.params.search)
    (hnc : ¬(st.localSearch = "" ∧ p.search ≠ "")) :
    (step (Ev.extSet p) st).localSearch = p.search ∧
      (step (Ev.extSet p) st).params = p ∧
      (step (Ev.extSet p) st).commits = st.commits := by
  simp only [step, extSetStep]
  rw [if_neg hnc, if_pos hch]
  exact ⟨rfl, rfl, rfl⟩

/-- Witness for C4 (amended), at the spec's P5 instance: local value
`"foo"`, external change to `"bar"`: the displayed value becomes `"bar"`
immediately and no commit is made. -/
theorem external_sync_witness :
    ((⟨"bar", 2, ()⟩ : Params Unit).search ≠ (init (⟨"foo", 1, ()⟩ : Params Unit)).params.search) ∧
      (step (Ev.extSet ⟨"bar", 2, ()⟩) (init (⟨"foo", 1, ()⟩ : Params Unit))).localSearch = "bar" ∧
      (step (Ev.extSet ⟨"bar", 2, ()⟩) (init (⟨"foo", 1, ()⟩ : Params Unit))).params = ⟨"bar", 2, ()⟩ ∧
      (step (Ev.extSet ⟨"bar", 2, ()⟩) (init (⟨"foo", 1, ()⟩ : Params Unit))).commits
        = (init (⟨"foo", 1, ()⟩ : Params Unit)).commits :=
  ⟨by decide, external_sync (init ⟨"foo", 1, ()⟩) ⟨"bar", 2, ()⟩ (by decide) (by decide)⟩

/-- C5: if the external store is updated to a value equal to the pending
local value before the debounce timer fires, the scheduled commit is
skipped (no `apply` call at expiry); and a commit is idempotent — a second
timer expiry right after a first one never adds a further commit. -/
theorem commit_idempotent {E : Type} (st : Ctrl E) (p : Params E)
    (hp : p.search = st.localSearch) :
    (fireStep (extSetStep p st)).commits = st.commits ∧
      (fireStep (fireStep st)).commits = (fireStep st).commits := by
  constructor
  · have hnc : ¬(st.localSearch = "" ∧ p.search ≠ "") := by
      intro hc
      exact hc.2 (hp.trans hc.1)
    simp only [extSetStep]
    rw [if_neg hnc]
    by_cases hch : p.search ≠ st.params.search
    · rw [if_pos hch]
      simp [fireStep, hp]
    · rw [if_neg hch]
      simp only [fireStep]
      split_ifs with h1 h2 <;> simp_all
  · by_cases ht : st.timerPending
    · by_cases hne : st.localSearch ≠ st.params.search
      · have h1 : fireStep st
            = { st with
                  params := commitOf st.params st.localSearch
                  timerPending := true
                  commits := st.commits ++ [commitOf st.params st.localSearch] } := by
          simp only [fireStep]
          rw [if_pos ht, if_pos hne]
        rw [h1]
        simp [fireStep, commitOf]
      · have h1 : fireStep st = { st with timerPending := false } := by
          simp only [fireStep]
          rw [if_pos ht, if_neg hne]
        rw [h1]
        simp [fireStep]
    · have h1 : fireStep st = st := by
        simp only [fireStep]
        rw [if_neg ht]
      rw [h1, h1]

/-- Witness for C5: pending local value `"v"` over external search `""`;
an external update to `search = "v"` followed by timer expiry commits
nothing, and double expiry from the same state adds nothing over single
expiry. -/
theorem commit_idempotent_witness :
    ((⟨"v", 9, ()⟩ : Params Unit).search
        = (⟨"v", ⟨"", 1, ()⟩, true, []⟩ : Ctrl Unit).localSearch) ∧
      (fireStep (extSetStep ⟨"v", 9, ()⟩ (⟨"v", ⟨"", 1, ()⟩, true, []⟩ : Ctrl Unit))).commits
        = (⟨"v", ⟨"", 1, ()⟩, true, []⟩ : Ctrl Unit).commits ∧
      (fireStep (fireStep (⟨"v", ⟨"", 1, ()⟩, true, []⟩ : Ctrl Unit))).commits
        = (fireStep (⟨"v", ⟨"", 1, ()⟩, true, []⟩ : Ctrl Unit)).commits :=
  ⟨by decide, commit_idempotent ⟨"v", ⟨"", 1, ()⟩, true, []⟩ ⟨"v", 9, ()⟩ (by decide)⟩

end EntitySearch

namespace EntitySearch

/-- C6 counterexample: keystrokes keep arriving with sub-debounce gaps
(no timer expiry event occurs), yet a commit happens: clearing the input
(`""`) while the external search is `"seed"` commits immediately. -/
theorem typing_no_commit_cex :
    (run [Ev.input "a", Ev.input ""] (init (⟨"seed", 1, ()⟩ : Params Unit))).commits
      = [⟨"", 1, ()⟩] := by decide

/-- C6 (amended): at most one timer is ever live (the state carries a single
`timerPending` flag, and each keystroke replaces the pending timer, which is
cancelled, not executed); while keystrokes keep arriving with gaps shorter
than the debounce interval, no commit occurs provided no keystroke is the
instant-clear case (empty input while the external search is non-empty); and
a timer pending at teardown never fires: after unmount, a timer expiry
changes nothing (in particular it makes no `apply` call). -/
theorem typing_no_commit {E : Type} (p0 : Params E) (ss : List String) (st : Ctrl E)
    (hnc : ∀ s ∈ ss, ¬(s = "" ∧ p0.search ≠ "")) :
    (run (ss.map Ev.input) (init p0)).commits = [] ∧
      fireStep (unmountStep st) = unmountStep st := by
  constructor
  · obtain ⟨_, _, h3, _⟩ := run_inputs ss (init p0) (fun t ht hc => hnc t ht hc)
    exact h3
  · simp [fireStep, unmountStep]

/-- Witness for C6 (amended): rapid typing `"h"`, `"he"` from external
search `""` commits nothing, and a stale timer expiry after teardown of a
controller leaves the torn-down state unchanged. -/
theorem typing_no_commit_witness :
    (run (["h", "he"].map Ev.input) (init (⟨"", 1, ()⟩ : Params Unit))).commits = [] ∧
      fireStep (unmountStep (init (⟨"x", 4, ()⟩ : Params Unit)))
        = unmountStep (init (⟨"x", 4, ()⟩ : Params Unit)) :=
  typing_no_commit ⟨"", 1, ()⟩ ["h", "he"] (init ⟨"x", 4, ()⟩) (by decide)

end EntitySearch

namespace Workflows

/-- C8 counterexample: the `getMany` input validation accepts `page = 0`
(a value below 1).  With pageSize bounds `[1, 100]` and default page size
`10`, the raw input `{page: 0, pageSize: 10, search: ""}` parses
successfully, yielding `page = 0`. -/
theorem page_validation_cex :
    parseInput 1 100 10 ⟨some 0, some 10, some ""⟩ = some ⟨0, 10, ""⟩ := by
  decide

/-- C8 (amended): the `page` field defaults to `1`
(`PAGINATION.DEFAULT_PAGE`), but the `getMany` input validation does not
constrain `page` at all: any accepted input echoes the given page (or the
default `1` when absent), and replacing the page of an accepted raw input
by an arbitrary integer `n` — including values below `1` — still
validates. -/
theorem page_validation (minPS maxPS defPS n : Int) (raw : RawInput) (inp : Input)
    (h : parseInput minPS maxPS defPS raw = some inp) :
    inp.page = raw.page.getD PAGINATION.DEFAULT_PAGE ∧
      parseInput minPS maxPS defPS { raw with page := some n }
        = some { inp with page := n } := by
  dsimp only [parseInput] at h ⊢
  split_ifs at h with hb
  · injection h with h'
    subst h'
    rw [if_pos hb]
    exact ⟨rfl, rfl⟩

/-- Witness for C8 (amended): with constants `1/100/10` and the empty raw
input, parsing defaults page to `1`, and overriding page with `-5` still
validates. -/
theorem page_validation_witness :
    (parseInput 1 100 10 ⟨none, none, none⟩ = some ⟨1, 10, ""⟩) ∧
      ((⟨1, 10, ""⟩ : Input).page
          = (⟨none, none, none⟩ : RawInput).page.getD PAGINATION.DEFAULT_PAGE ∧
        parseInput 1 100 10 { (⟨none, none, none⟩ : RawInput) with page := some (-5) }
          = some { (⟨1, 10, ""⟩ : Input) with page := -5 }) :=
  ⟨by decide, page_validation 1 100 10 (-5) ⟨none, none, none⟩ ⟨1, 10, ""⟩ (by decide)⟩

end Workflows

namespace Workflows

/-- Field equations extracted from a successful parse. -/
theorem parseInput_fields (minPS maxPS defPS : Int) (raw : RawInput) (inp : Input)
    (h : parseInput minPS maxPS defPS raw = some inp) :
    inp.page = raw.page.getD PAGINATION.DEFAULT_PAGE ∧
      inp.pageSize = raw.pageSize.getD defPS ∧
      inp.search = raw.search.getD "" ∧
      minPS ≤ inp.pageSize ∧ inp.pageSize ≤ maxPS := by
  dsimp only [parseInput] at h
  split_ifs at h with hb
  injection h with h'
  subst h'
  exact ⟨rfl, rfl, rfl, hb.1, hb.2⟩

/-- `(t + ps - 1) / ps` is the exact ceiling of `t / ps` for `ps ≥ 1`: it is
the unique `q` with `t ≤ q * ps < t + ps`. -/
theorem ceil_div_bounds (t ps : Nat) (hps : 1 ≤ ps) :
    t ≤ (t + ps - 1) / ps * ps ∧ (t + ps - 1) / ps * ps < t + ps := by
  have hdm := Nat.div_add_mod (t + ps - 1) ps
  have hmod : (t + ps - 1) % ps < ps := Nat.mod_lt _ (by omega)
  rw [Nat.mul_comm ((t + ps - 1) / ps) ps]
  generalize hq : (t + ps - 1) / ps = q at hdm ⊢
  generalize hr : (t + ps - 1) % ps = r at hdm hmod
  generalize hY : ps * q = Y at hdm ⊢
  omega

theorem getMany_page_def (db : List Workflow) (uid : String) (inp : Input) :
    (getMany db uid inp).page = inp.page := rfl

theorem getMany_pageSize_def (db : List Workflow) (uid : String) (inp : Input) :
    (getMany db uid inp).pageSize = inp.pageSize := rfl

theorem getMany_total_def (db : List Workflow) (uid : String) (inp : Input) :
    (getMany db uid inp).total
      = (db.filter (whereMatches uid inp.search)).length := rfl

theorem getMany_totalPages_def (db : List Workflow) (uid : String) (inp : Input) :
    (getMany db uid inp).totalPages
      = ((db.filter (whereMatches uid inp.search)).length + inp.pageSize.toNat - 1)
          / inp.pageSize.toNat := rfl

theorem getMany_hasNextPage_def (db : List Workflow) (uid : String) (inp : Input) :
    (getMany db uid inp).hasNextPage
      = decide (inp.page < ((getMany db uid inp).totalPages : Int)) := rfl

theorem getMany_hasPreviousPage_def (db : List Workflow) (uid : String) (inp : Input) :
    (getMany db uid inp).hasPreviousPage = decide (1 < inp.page) := rfl

theorem getMany_items_def (db : List Workflow) (uid : String) (inp : Input) :
    (getMany db uid inp).items
      = ((sortDesc (db.filter (whereMatches uid inp.search))).drop
          ((inp.page - 1) * inp.pageSize).toNat).take inp.pageSize.toNat := rfl

end Workflows

namespace Workflows

/-- C9: for every accepted input to `getMany` (with a positive page-size
minimum and `page ≥ 1`, per the spec's data model), the returned record
echoes the (defaulted) `page` and `pageSize`, `total` counts the filtered
rows, `totalPages` is the exact ceiling of `total / pageSize`
(characterized by `total ≤ totalPages * pageSize < total + pageSize`),
`hasNextPage` holds iff `page < totalPages`, `hasPreviousPage` holds iff
`page > 1`, and the items are the filtered, `createdAt`-descending rows
after an offset of exactly `skip = (page - 1) * pageSize` (a non-negative
quantity) and a limit of `pageSize`. -/
theorem getMany_pagination (minPS maxPS defPS : Int) (raw : RawInput) (inp : Input)
    (hmin : 1 ≤ minPS)
    (h : parseInput minPS maxPS defPS raw = some inp)
    (hpage : 1 ≤ inp.page)
    (db : List Workflow) (uid : String) :
    (getMany db uid inp).page = raw.page.getD PAGINATION.DEFAULT_PAGE ∧
      (getMany db uid inp).pageSize = raw.pageSize.getD defPS ∧
      (getMany db uid inp).total = (db.filter (whereMatches uid inp.search)).length ∧
      (getMany db uid inp).total
          ≤ (getMany db uid inp).totalPages * inp.pageSize.toNat ∧
      (getMany db uid inp).totalPages * inp.pageSize.toNat
          < (getMany db uid inp).total + inp.pageSize.toNat ∧
      ((getMany db uid inp).hasNextPage = true
          ↔ inp.page < ((getMany db uid inp).totalPages : Int)) ∧
      ((getMany db uid inp).hasPreviousPage = true ↔ 1 < inp.page) ∧
      0 ≤ (inp.page - 1) * inp.pageSize ∧
      (getMany db uid inp).items
        = ((sortDesc (db.filter (whereMatches uid inp.search))).drop
            ((inp.page - 1) * inp.pageSize).toNat).take inp.pageSize.toNat := by
  obtain ⟨hp, hps, hs, hlo, hhi⟩ := parseInput_fields minPS maxPS defPS raw inp h
  have hps1 : 1 ≤ inp.pageSize := le_trans hmin hlo
  have hpsn : 1 ≤ inp.pageSize.toNat := by omega
  have hb := ceil_div_bounds ((db.filter (whereMatches uid inp.search)).length)
    inp.pageSize.toNat hpsn
  refine ⟨by rw [getMany_page_def, hp], by rw [getMany_pageSize_def, hps],
    getMany_total_def db uid inp, ?_, ?_, ?_, ?_, ?_, getMany_items_def db uid inp⟩
  · rw [getMany_total_def, getMany_totalPages_def]
    exact hb.1
  · rw [getMany_total_def, getMany_totalPages_def]
    exact hb.2
  · rw [getMany_hasNextPage_def]
    exact decide_eq_true_iff
  · rw [getMany_hasPreviousPage_def]
    exact decide_eq_true_iff
  · exact mul_nonneg (by omega) (by omega)

/-- Witness for C9: constants `1/100/10`, raw input
`{page: 2, pageSize: 2, search: ""}`, a three-row database for user `"u"`:
the returned record has `total = 3`, `totalPages = 2`, a next-page flag of
`false`, a previous-page flag of `true`, and the second page's single
remaining item. -/
theorem getMany_pagination_witness :
    (parseInput 1 100 10 ⟨some 2, some 2, some ""⟩ = some ⟨2, 2, ""⟩) ∧
      ((getMany
            [⟨"a", "n1", "u", 3⟩, ⟨"b", "n2", "u", 2⟩, ⟨"c", "n3", "u", 1⟩]
            "u" ⟨2, 2, ""⟩).page
          = (⟨some 2, some 2, some ""⟩ : RawInput).page.getD PAGINATION.DEFAULT_PAGE ∧
        (getMany
            [⟨"a", "n1", "u", 3⟩, ⟨"b", "n2", "u", 2⟩, ⟨"c", "n3", "u", 1⟩]
            "u" ⟨2, 2, ""⟩).pageSize
          = (⟨some 2, some 2, some ""⟩ : RawInput).pageSize.getD 10 ∧
        (getMany
            [⟨"a", "n1", "u", 3⟩, ⟨"b", "n2", "u", 2⟩, ⟨"c", "n3", "u", 1⟩]
            "u" ⟨2, 2, ""⟩).total
          = ([⟨"a", "n1", "u", 3⟩, ⟨"b", "n2", "u", 2⟩, ⟨"c", "n3", "u", 1⟩].filter
              (whereMatches "u" (⟨2, 2, ""⟩ : Input).search)).length ∧
        (getMany
            [⟨"a", "n1", "u", 3⟩, ⟨"b", "n2", "u", 2⟩, ⟨"c", "n3", "u", 1⟩]
            "u" ⟨2, 2, ""⟩).total
          ≤ (getMany
              [⟨"a", "n1", "u", 3⟩, ⟨"b", "n2", "u", 2⟩, ⟨"c", "n3", "u", 1⟩]
              "u" ⟨2, 2, ""⟩).totalPages * (⟨2, 2, ""⟩ : Input).pageSize.toNat ∧
        (getMany
            [⟨"a", "n1", "u", 3⟩, ⟨"b", "n2", "u", 2⟩, ⟨"c", "n3", "u", 1⟩]
            "u" ⟨2, 2, ""⟩).totalPages * (⟨2, 2, ""⟩ : Input).pageSize.toNat
          < (getMany
              [⟨"a", "n1", "u", 3⟩, ⟨"b", "n2", "u", 2⟩, ⟨"c", "n3", "u", 1⟩]
              "u" ⟨2, 2, ""⟩).total + (⟨2, 2, ""⟩ : Input).pageSize.toNat ∧
        ((getMany
            [⟨"a", "n1", "u", 3⟩, ⟨"b", "n2", "u", 2⟩, ⟨"c", "n3", "u", 1⟩]
            "u" ⟨2, 2, ""⟩).hasNextPage = true
          ↔ (⟨2, 2, ""⟩ : Input).page
              < ((getMany
                  [⟨"a", "n1", "u", 3⟩, ⟨"b", "n2", "u", 2⟩, ⟨"c", "n3", "u", 1⟩]
                  "u" ⟨2, 2, ""⟩).totalPages : Int)) ∧
        ((getMany
            [⟨"a", "n1", "u", 3⟩, ⟨"b", "n2", "u", 2⟩, ⟨"c", "n3", "u", 1⟩]
            "u" ⟨2, 2, ""⟩).hasPreviousPage = true ↔ 1 < (⟨2, 2, ""⟩ : Input).page) ∧
        0 ≤ ((⟨2, 2, ""⟩ : Input).page - 1) * (⟨2, 2, ""⟩ : Input).pageSize ∧
        (getMany
            [⟨"a", "n1", "u", 3⟩, ⟨"b", "n2", "u", 2⟩, ⟨"c", "n3", "u", 1⟩]
            "u" ⟨2, 2, ""⟩).items
          = ((sortDesc
              ([⟨"a", "n1", "u", 3⟩, ⟨"b", "n2", "u", 2⟩, ⟨"c", "n3", "u", 1⟩].filter
                (whereMatches "u" (⟨2, 2, ""⟩ : Input).search))).drop
              (((⟨2, 2, ""⟩ : Input).page - 1) * (⟨2, 2, ""⟩ : Input).pageSize).toNat).take
              (⟨2, 2, ""⟩ : Input).pageSize.toNat) :=
  ⟨by decide,
   getMany_pagination 1 100 10 ⟨some 2, some 2, some ""⟩ ⟨2, 2, ""⟩ (by decide)
     (by decide) (by decide)
     [⟨"a", "n1", "u", 3⟩, ⟨"b", "n2", "u", 2⟩, ⟨"c", "n3", "u", 1⟩] "u"⟩

end Workflows

namespace Workflows

/-- `hasSub` decides contiguous-substring containment. -/
theorem hasSub_iff (needle hay : List Char) :
    hasSub needle hay = true ↔ needle <:+: hay := by
  induction hay with
  | nil =>
      simp only [hasSub, List.isEmpty_iff]
      constructor
      · intro h; simp [h]
      · intro h; simpa using h.sublist.length_le
  | cons c rest ih =>
      simp only [hasSub, Bool.or_eq_true, List.isPrefixOf_iff_prefix, ih,
        List.infix_cons_iff]

/-- Membership through descending insertion. -/
theorem mem_insertDesc {w x : Workflow} {l : List Workflow} :
    x ∈ insertDesc w l ↔ x = w ∨ x ∈ l := by
  induction l with
  | nil => simp [insertDesc]
  | cons y ys ih =>
      simp only [insertDesc]
      split_ifs
      · simp [List.mem_cons]
      · simp only [List.mem_cons, ih]
        tauto

/-- Sorting by `createdAt` descending does not change membership. -/
theorem mem_sortDesc {x : Workflow} {l : List Workflow} :
    x ∈ sortDesc l ↔ x ∈ l := by
  induction l with
  | nil => simp [sortDesc]
  | cons y ys ih => simp [sortDesc, mem_insertDesc, ih]

/-- C10: in `getMany`, when the (defaulted) search string is empty the
`where` filter is the ownership test alone (no name condition at all); when
it is non-empty, the filter conjoins ownership with a case-insensitive
substring match of the search inside the workflow name (`containsCI`, which
holds exactly when the lower-cased search characters occur contiguously in
the lower-cased name); and every item `getMany` returns belongs to the
authenticated user. -/
theorem getMany_scope (inp : Input) (db : List Workflow) (uid : String)
    (w : Workflow) :
    (inp.search = "" → whereMatches uid inp.search w = (w.userId == uid)) ∧
      (inp.search ≠ "" →
        whereMatches uid inp.search w
            = (w.userId == uid && containsCI w.name inp.search) ∧
          (containsCI w.name inp.search = true
            ↔ lowerChars inp.search <:+: lowerChars w.name)) ∧
      (w ∈ (getMany db uid inp).items → w.userId = uid) := by
  refine ⟨?_, ?_, ?_⟩
  · intro hs
    simp [whereMatches, hs]
  · intro hs
    refine ⟨by simp [whereMatches, hs], hasSub_iff _ _⟩
  · intro hw
    rw [getMany_items_def] at hw
    have h1 : w ∈ sortDesc (db.filter (whereMatches uid inp.search)) :=
      List.mem_of_mem_drop (List.mem_of_mem_take hw)
    have h2 : w ∈ db.filter (whereMatches uid inp.search) := mem_sortDesc.1 h1
    have h3 : whereMatches uid inp.search w = true := List.of_mem_filter h2
    simp only [whereMatches, Bool.and_eq_true] at h3
    exact eq_of_beq h3.1

/-- Witness for C10: user `"u"`, search `"aB"`; the workflow named
`"xAby"` matches case-insensitively, and the returned items all belong to
`"u"`. -/
theorem getMany_scope_witness :
    ((⟨1, 10, "aB"⟩ : Input).search = ""
        → whereMatches "u" (⟨1, 10, "aB"⟩ : Input).search ⟨"a", "xAby", "u", 0⟩
            = ((⟨"a", "xAby", "u", 0⟩ : Workflow).userId == "u")) ∧
      ((⟨1, 10, "aB"⟩ : Input).search ≠ ""
        → whereMatches "u" (⟨1, 10, "aB"⟩ : Input).search ⟨"a", "xAby", "u", 0⟩
              = ((⟨"a", "xAby", "u", 0⟩ : Workflow).userId == "u"
                  && containsCI (⟨"a", "xAby", "u", 0⟩ : Workflow).name
                      (⟨1, 10, "aB"⟩ : Input).search) ∧
            (containsCI (⟨"a", "xAby", "u", 0⟩ : Workflow).name
                (⟨1, 10, "aB"⟩ : Input).search = true
              ↔ lowerChars (⟨1, 10, "aB"⟩ : Input).search
                  <:+: lowerChars (⟨"a", "xAby", "u", 0⟩ : Workflow).name)) ∧
      (⟨"a", "xAby", "u", 0⟩ ∈
          (getMany [⟨"a", "xAby", "u", 0⟩] "u" (⟨1, 10, "aB"⟩ : Input)).items
        → (⟨"a", "xAby", "u", 0⟩ : Workflow).userId = "u") :=
  getMany_scope ⟨1, 10, "aB"⟩ [⟨"a", "xAby", "u", 0⟩] "u" ⟨"a", "xAby", "u", 0⟩

end Workflows
